import Mathlib

/-!
Shallow embedding of the OSS Vizier tutorial code
(`docs/guides/developer/writing_algorithms.ipynb` and
`docs/guides/user/search_spaces.ipynb`): the pyvizier data model the
examples use, the example Pythia policy (`make_parameters`,
`get_next_index`, `MyPolicy`), the example designer (`MyDesigner`), the
conditional search space, the Lehmer-code reparameterization and the
infeasibility example, together with theorems settling the spec claims.
-/

namespace Vizier

/-- Parameter types of the search-space model (`pyvizier.ParameterType`). -/
inductive ParameterType : Type where
  | DOUBLE
  | INTEGER
  | DISCRETE
  | CATEGORICAL
deriving DecidableEq, Repr

/-- Scale types (`vz.ScaleType`). -/
inductive ScaleType : Type where
  | LINEAR
  | LOG
  | REVERSE_LOG
  | UNIFORM_DISCRETE
deriving DecidableEq, Repr

/-- A typed parameter value (`pyvizier.ParameterValue`); DOUBLE and DISCRETE
values are modelled as rationals. -/
inductive ParameterValue : Type where
  | double (q : ℚ)
  | int (i : ℤ)
  | discrete (q : ℚ)
  | categorical (s : String)
deriving DecidableEq, Repr

/-- The non-recursive payload of one parameter configuration: name, type,
bounds, feasible values, scale type. -/
structure ParamCore where
  name : String
  type : ParameterType
  min_value : ℚ := 0
  max_value : ℚ := 0
  feasible_points : List ℚ := []
  feasible_values : List String := []
  scale_type : Option ScaleType := none
deriving DecidableEq, Repr

mutual

/-- A parameter configuration: its payload plus its guarded child
configurations, as in the spec's design note "node = parameter config +
ordered set of (guard-condition, child-node) pairs". -/
inductive ParameterConfig : Type where
  | mk : ParamCore → Children → ParameterConfig

/-- The ordered list of (guard values, child configuration) pairs under one
parameter; each child was added through `select(parent, matching_values)`
followed by an `add_*_param` call. -/
inductive Children : Type where
  | nil : Children
  | cons : List String → ParameterConfig → Children → Children

end

/-- The payload of a configuration. -/
def ParameterConfig.core : ParameterConfig → ParamCore
  | .mk c _ => c

/-- The guarded children of a configuration. -/
def ParameterConfig.children : ParameterConfig → Children
  | .mk _ cs => cs

/-- `parameter_config.name`. -/
def ParameterConfig.name (pc : ParameterConfig) : String := pc.core.name

/-- `parameter_config.type`. -/
def ParameterConfig.type (pc : ParameterConfig) : ParameterType := pc.core.type

/-- `parameter_config.feasible_values` (CATEGORICAL feasible values). -/
def ParameterConfig.feasible_values (pc : ParameterConfig) : List String :=
  pc.core.feasible_values

/-- A search space owns its top-level parameter configurations
(`search_space.parameters`). -/
structure SearchSpace where
  parameters : List ParameterConfig

/-- A study configuration (`pyvizier.StudyConfig` / `vz.ProblemStatement`):
the search space (metric information is not used by any claim). -/
structure StudyConfig where
  search_space : SearchSpace

/-- Trial status (`pyvizier.TrialStatus`). -/
inductive TrialStatus : Type where
  | ACTIVE
  | COMPLETED
  | STOPPED
deriving DecidableEq, Repr

/-- A measurement (`vz.Measurement`): metric name to value. -/
structure Measurement where
  metrics : List (String × ℚ)
deriving DecidableEq, Repr

/-- A trial record (`vz.Trial`). -/
structure Trial where
  id : ℕ := 0
  parameters : List (String × ParameterValue) := []
  status : TrialStatus := .ACTIVE
  final_measurement : Option Measurement := none
  infeasibility_reason : Option String := none
deriving DecidableEq, Repr

/-- Modelled from the spec: `Trial.complete` is pyvizier code not under
`src/` (the notebooks only call it); per the spec's trial lifecycle, a trial
"transitions to COMPLETED when an evaluation result (measurement or
infeasibility) is recorded", so `complete(measurement)` records the
measurement and marks the trial COMPLETED. -/
def Trial.complete (t : Trial) (m : Measurement) : Trial :=
  { t with final_measurement := some m, status := .COMPLETED }

/-- A parameter dictionary (`pyvizier.ParameterDict`): an insertion-ordered
association list from parameter name to value. -/
abbrev ParameterDict := List (String × ParameterValue)

/-- Python dict assignment `d[k] = v`: overwrite in place if the key is
present, otherwise append. -/
def dictSet (d : ParameterDict) (k : String) (v : ParameterValue) : ParameterDict :=
  if d.any (fun p => p.1 == k) then
    d.map (fun p => if p.1 == k then (k, v) else p)
  else
    d ++ [(k, v)]

/-- The loop body of `make_parameters`: walk the parameter configurations,
and for each CATEGORICAL one set
`parameter_dict[name] = feasible_values[index % categorical_size]`;
any non-CATEGORICAL configuration raises
`ValueError("This function only supports CATEGORICAL parameters.")`;
an empty feasible-value list makes `index % 0` raise a ZeroDivisionError. -/
def make_parameters_loop (index : ℕ) :
    List ParameterConfig → ParameterDict → Except String ParameterDict
  | [], parameter_dict => .ok parameter_dict
  | parameter_config :: rest, parameter_dict =>
    if parameter_config.type = ParameterType.CATEGORICAL then
      let feasible_values := parameter_config.feasible_values
      let categorical_size := feasible_values.length
      if categorical_size = 0 then
        .error "ZeroDivisionError: integer modulo by zero"
      else
        make_parameters_loop index rest
          (dictSet parameter_dict parameter_config.name
            (.categorical (feasible_values.getD (index % categorical_size) "")))
    else
      .error "This function only supports CATEGORICAL parameters."

/-- `make_parameters(study_config, index)` from the writing-algorithms
notebook: builds a `ParameterDict` that, for every CATEGORICAL parameter,
cycles through its feasible values by `index % categorical_size`. -/
def make_parameters (study_config : StudyConfig) (index : ℕ) :
    Except String ParameterDict :=
  make_parameters_loop index study_config.search_space.parameters []

/-- The datastore-backed `pythia.PolicySupporter`: it holds the study's
persisted trial records in ascending identifier order. -/
structure PolicySupporter where
  trials : List Trial

/-- Modelled from the spec: `PolicySupporter.GetTrials` is pythia code not
under `src/` (the notebook only calls it); per the spec's Datastore Client
interface it returns the trials "filtered by status predicate", in the
stored ascending-identifier order. -/
def PolicySupporter.GetTrials (ps : PolicySupporter) (status_matches : TrialStatus) :
    List Trial :=
  ps.trials.filter (fun t => t.status == status_matches)

/-- `get_next_index(policy_supporter)`: the maximum COMPLETED trial id, or 0
when there is none (`max(completed_trial_ids)` guarded by a non-emptiness
check). -/
def get_next_index (policy_supporter : PolicySupporter) : ℕ :=
  let completed_trial_ids :=
    (policy_supporter.GetTrials .COMPLETED).map Trial.id
  match completed_trial_ids with
  | [] => 0
  | x :: xs => xs.foldl Nat.max x

/-- A suggested trial (`pyvizier.TrialSuggestion`): just its parameters. -/
structure TrialSuggestion where
  parameters : ParameterDict
deriving DecidableEq, Repr

/-- A suggestion request (`pythia.SuggestRequest`): the requested count and
the study configuration. -/
structure SuggestRequest where
  count : ℕ
  study_config : StudyConfig

/-- A suggestion decision (`pythia.SuggestDecision`); `MyPolicy` always
attaches an empty `MetadataDelta`, so no metadata field is needed. -/
structure SuggestDecision where
  suggestions : List TrialSuggestion
deriving DecidableEq, Repr

/-- The example Pythia policy `MyPolicy`: its only state is the injected
`PolicySupporter`. -/
structure MyPolicy where
  policy_supporter : PolicySupporter

/-- The `for _ in range(request.count)` loop of `MyPolicy.suggest`: each
iteration recomputes `get_next_index` on the supporter and calls
`make_parameters`, appending the suggestion. -/
def MyPolicy.suggestLoop (policy_supporter : PolicySupporter)
    (study_config : StudyConfig) : ℕ → Except String (List TrialSuggestion)
  | 0 => .ok []
  | n + 1 => do
    let index := get_next_index policy_supporter
    let parameters ← make_parameters study_config index
    let rest ← MyPolicy.suggestLoop policy_supporter study_config n
    pure (TrialSuggestion.mk parameters :: rest)

/-- `MyPolicy.suggest(request)`: loops `request.count` times, each time
fetching the next index from the supporter and making parameters; a
`ValueError` from `make_parameters` propagates. -/
def MyPolicy.suggest (p : MyPolicy) (request : SuggestRequest) :
    Except String SuggestDecision := do
  let suggest_decision_list ←
    MyPolicy.suggestLoop p.policy_supporter request.study_config request.count
  pure ⟨suggest_decision_list⟩

/-- `algorithms.CompletedTrials`: a batch of newly completed trials. -/
structure CompletedTrials where
  completed : List Trial

/-- The example designer `MyDesigner`: stores the study configuration and
the completed trials observed so far (`self._completed_trials`). -/
structure MyDesigner where
  study_config : StudyConfig
  completed_trials : List Trial

/-- `MyDesigner.__init__(study_config)`: empty completed-trial list. -/
def MyDesigner.init (study_config : StudyConfig) : MyDesigner :=
  ⟨study_config, []⟩

/-- `MyDesigner.update(delta)`: `self._completed_trials.extend(delta.completed)`. -/
def MyDesigner.update (d : MyDesigner) (delta : CompletedTrials) : MyDesigner :=
  { d with completed_trials := d.completed_trials ++ delta.completed }

/-- The list comprehension of `MyDesigner.suggest`:
`[make_parameters(self._study_config, current_index + i) for i in range(count)]`;
a `ValueError` from `make_parameters` propagates. -/
def MyDesigner.suggestList (study_config : StudyConfig) (current_index : ℕ) :
    List ℕ → Except String (List ParameterDict)
  | [] => .ok []
  | i :: rest => do
    let d ← make_parameters study_config (current_index + i)
    let ds ← MyDesigner.suggestList study_config current_index rest
    pure (d :: ds)

/-- `MyDesigner.suggest(count)`: `None` count returns `[]`; otherwise
`current_index = max(completed_trial_ids)` — which raises a `ValueError`
on an empty list — followed by the comprehension over `range(count)`. -/
def MyDesigner.suggest (d : MyDesigner) (count : Option ℕ) :
    Except String (List ParameterDict) :=
  match count with
  | none => .ok []
  | some count =>
    let completed_trial_ids := d.completed_trials.map Trial.id
    match completed_trial_ids with
    | [] => .error "ValueError: max() arg is an empty sequence"
    | x :: xs =>
      let current_index := xs.foldl Nat.max x
      MyDesigner.suggestList d.study_config current_index (List.range count)

/-- Modelled from the spec: guard matching for conditional children is
vizier core code not under `src/` (the notebook only constructs the space);
per the spec a child is reachable when "their parent's realized value
matches the guarding condition (parent value ∈ specified subset)", and an
unassigned or non-matching parent contributes no children. The guards built
by `select(parent, matching_values)` are string (CATEGORICAL) values. -/
def matchGuard : Option ParameterValue → List String → Bool
  | some (.categorical s), guard => guard.contains s
  | _, _ => false

mutual

/-- Modelled from the spec: flattening/traversal of the search space is
vizier core code not under `src/`; per the spec it is "a straightforward
recursive walk guarded by equality/membership checks on realized parent
values" which "yields the active parameter set for any given assignment". -/
def ParameterConfig.active (assign : String → Option ParameterValue) :
    ParameterConfig → List ParamCore
  | .mk core cs => core :: Children.active assign core.name cs

/-- Modelled from the spec: the walk over the guarded children of a
parameter; a child subtree is entered only when the parent's realized value
matches the child's guard. -/
def Children.active (assign : String → Option ParameterValue) (parent : String) :
    Children → List ParamCore
  | .nil => []
  | .cons guard child rest =>
    (if matchGuard (assign parent) guard then ParameterConfig.active assign child
     else []) ++ Children.active assign parent rest

end

/-- Modelled from the spec: the active (flattened) parameter set of a search
space under an assignment — every top-level configuration walked by
`ParameterConfig.active`. -/
def SearchSpace.active (ss : SearchSpace) (assign : String → Option ParameterValue) :
    List ParamCore :=
  (ss.parameters.map (ParameterConfig.active assign)).flatten

/-- The `sgd_learning_rate` child parameter of the conditional problem. -/
def sgd_learning_rate : ParameterConfig :=
  .mk { name := "sgd_learning_rate", type := .DOUBLE, min_value := 1/10000,
        max_value := 1, scale_type := some .LOG } .nil

/-- The `adam_learning_rate` child parameter of the conditional problem. -/
def adam_learning_rate : ParameterConfig :=
  .mk { name := "adam_learning_rate", type := .DOUBLE, min_value := 1/10000,
        max_value := 1, scale_type := some .LOG } .nil

/-- The `adam_beta1` child parameter of the conditional problem. -/
def adam_beta1 : ParameterConfig :=
  .mk { name := "adam_beta1", type := .DOUBLE, min_value := 0, max_value := 1,
        scale_type := some .REVERSE_LOG } .nil

/-- The `adam_beta2` child parameter of the conditional problem. -/
def adam_beta2 : ParameterConfig :=
  .mk { name := "adam_beta2", type := .DOUBLE, min_value := 0, max_value := 1,
        scale_type := some .REVERSE_LOG } .nil

/-- The conditional search space of the search-spaces notebook: categorical
parent `optimizer ∈ ["sgd", "adam"]` with `sgd_learning_rate` guarded on
`["sgd"]` and `adam_learning_rate`, `adam_beta1`, `adam_beta2` guarded on
`["adam"]`. -/
def conditional_problem : SearchSpace :=
  { parameters := [ .mk
      { name := "optimizer", type := .CATEGORICAL,
        feasible_values := ["sgd", "adam"] }
      (.cons ["sgd"] sgd_learning_rate
        (.cons ["adam"] adam_learning_rate
          (.cons ["adam"] adam_beta1
            (.cons ["adam"] adam_beta2 .nil)))) ] }

/-- Reading a DOUBLE parameter out of a trial-suggestion dictionary, as
`parameters['x']` does: a missing key raises a KeyError. -/
def getFloat (d : List (String × ParameterValue)) (k : String) : Except String ℚ :=
  match d.lookup k with
  | some (.double q) => .ok q
  | some _ => .error "TypeError: unsupported operand"
  | none => .error ("KeyError: " ++ k)

/-- `evaluate(trial)` from the infeasibility example of the search-spaces
notebook, transcribed as written: the body reads `suggestion.parameters`
although `suggestion` is a name never defined anywhere in the notebook, so
the Python global lookup is modelled by the extra `suggestion` argument,
`none` (the notebook's actual environment) raising a NameError. With a
binding for `suggestion`, inside the unit disk the trial is completed with
the `sum` measurement; outside of it only `infeasibility_reason` is
assigned and the trial is returned otherwise unchanged — in particular its
status is not modified. -/
def evaluate (suggestion : Option Trial) (trial : Trial) : Except String Trial :=
  match suggestion with
  | none => .error "NameError: name 'suggestion' is not defined"
  | some s => do
    let x ← getFloat s.parameters "x"
    let y ← getFloat s.parameters "y"
    if x ^ 2 + y ^ 2 ≤ 1 then
      pure (trial.complete ⟨[("sum", x + y)]⟩)
    else
      pure { trial with infeasibility_reason := some "Outside of range." }

/-- `N = 10`, the permutation size of the combinatorial-reparameterization
example. -/
def N : ℕ := 10

/-- `compute_index(trial)` from the search-spaces notebook:
`index = Σ_{n<N} trial.parameters.get_value(str(n)) * factorial(n)`, where
`values` lists the assignment of parameter `str(n)` at position `n`. -/
def compute_index (values : List ℕ) : ℕ :=
  ∑ n ∈ Finset.range N, values.getD n 0 * Nat.factorial n

/-- The loop of `compute_permutation`, counting the remaining iterations:
with `r + 1` indices left, `factorial_value = r!`, the element at
`temp_index // factorial_value` of `all_indices` is emitted and removed
(Python raises an IndexError out of range; in range this is total, and the
out-of-range case is modelled by `getD _ 0`), and the loop continues on
`temp_index % factorial_value`. -/
def computePermAux : List ℕ → ℕ → ℕ → List ℕ
  | _, _, 0 => []
  | all_indices, temp_index, r + 1 =>
    let factorial_value := Nat.factorial r
    let value := all_indices.getD (temp_index / factorial_value) 0
    value :: computePermAux (all_indices.erase value) (temp_index % factorial_value) r

/-- `compute_permutation(index)` from the search-spaces notebook: decode an
index into an `N`-permutation through the Lehmer code, starting from
`all_indices = list(range(N))`. -/
def compute_permutation (index : ℕ) : List ℕ :=
  computePermAux (List.range N) index N

/-- `phi(trial) = compute_permutation(compute_index(trial))`. -/
def phi (values : List ℕ) : List ℕ :=
  compute_permutation (compute_index values)

/-- A valid assignment of the permutation search space: one value per
parameter `"0", ..., "9"`, parameter `str(n)` being an INTEGER in
`[0, n]`. -/
def LehmerBounded (values : List ℕ) : Prop :=
  values.length = N ∧ ∀ n < N, values.getD n 0 ≤ n

instance : DecidablePred LehmerBounded := fun _ => by
  unfold LehmerBounded; infer_instance

/-- The single CATEGORICAL parameter `p` with feasible values a, b, c of the
categorical cycling scenario. -/
def abcParam : ParameterConfig :=
  .mk { name := "p", type := .CATEGORICAL, feasible_values := ["a", "b", "c"] } .nil

/-- Study configuration holding only `abcParam`. -/
def abcConfig : StudyConfig := ⟨⟨[abcParam]⟩⟩

/-- Study configuration with one INTEGER parameter `x` in `[1, 10]`, the
cycling-baseline scenario of the spec. -/
def intCyclingConfig : StudyConfig :=
  ⟨⟨[ .mk { name := "x", type := .INTEGER, min_value := 1, max_value := 10 } .nil ]⟩⟩

/-- Study configuration with one CATEGORICAL parameter `x` whose feasible
values spell out 1..10 — the categorical analogue of the cycling-baseline
scenario that `make_parameters` actually supports. -/
def catCyclingConfig : StudyConfig :=
  ⟨⟨[ .mk { name := "x", type := .CATEGORICAL,
            feasible_values := ["1", "2", "3", "4", "5", "6", "7", "8", "9", "10"] }
      .nil ]⟩⟩

/-- Three completed trials whose ids 1, 2, 3 map to x = 1, 2, 3. -/
def completedTrials123 : List Trial :=
  [ { id := 1, parameters := [("x", .int 1)], status := .COMPLETED },
    { id := 2, parameters := [("x", .int 2)], status := .COMPLETED },
    { id := 3, parameters := [("x", .int 3)], status := .COMPLETED } ]

/-- The infeasibility-scenario trial with assignment `(x = 2, y = 2)`. -/
def diskTrial : Trial :=
  { id := 1, parameters := [("x", .double 2), ("y", .double 2)] }

/-- An assignment realizing `optimizer = "sgd"`. -/
def sgdAssignment : String → Option ParameterValue :=
  fun name => if name = "optimizer" then some (.categorical "sgd") else none

/-- An assignment realizing `optimizer = "adam"`. -/
def adamAssignment : String → Option ParameterValue :=
  fun name => if name = "optimizer" then some (.categorical "adam") else none

/-- A datastore supporter holding one COMPLETED trial. -/
def supporterCompleted : PolicySupporter :=
  ⟨[ { id := 1, parameters := [("p", .categorical "a")], status := .COMPLETED } ]⟩

/-- A datastore supporter holding the same COMPLETED trial plus an extra
ACTIVE trial, so both supporters fetch identical completed histories. -/
def supporterWithActive : PolicySupporter :=
  ⟨[ { id := 1, parameters := [("p", .categorical "a")], status := .COMPLETED },
     { id := 2, parameters := [("p", .categorical "b")], status := .ACTIVE } ]⟩

/-- Helper for the Lehmer-code analysis: the factorial-base value of a digit
list read from radix position `k` (digit `k` first):
`value = digit + (k + 1) * value_of_rest`. At `k = 0` and length `N` this
coincides with `compute_index`. -/
def cIdxAux : ℕ → List ℕ → ℕ
  | _, [] => 0
  | k, d :: ds => d + (k + 1) * cIdxAux (k + 1) ds

/-- Helper: the product `(k + 1) * (k + 2) * ... * (k + n)` — the number of
digit lists of length `n` that are bounded from radix position `k`. -/
def prodFrom : ℕ → ℕ → ℕ
  | _, 0 => 1
  | k, n + 1 => (k + 1) * prodFrom (k + 1) n

/-- Digit lists valid from radix position `k`: digit `i` is at most `k + i`. -/
def BoundedFrom (k : ℕ) (ds : List ℕ) : Prop :=
  ∀ i < ds.length, ds.getD i 0 ≤ k + i

/-- Helper: the factorial-weighted digit sum starting at weight `(k + i)!`;
`sumFrom 0` is the sum computed by `compute_index`. -/
def sumFrom (k : ℕ) (l : List ℕ) : ℕ :=
  ∑ i ∈ Finset.range l.length, l.getD i 0 * Nat.factorial (k + i)

theorem get_next_index_congr {ps1 ps2 : PolicySupporter}
    (h : ps1.GetTrials .COMPLETED = ps2.GetTrials .COMPLETED) :
    get_next_index ps1 = get_next_index ps2 := by
  unfold get_next_index
  rw [h]

theorem suggestLoop_congr {ps1 ps2 : PolicySupporter}
    (h : get_next_index ps1 = get_next_index ps2) (sc : StudyConfig) :
    ∀ n, MyPolicy.suggestLoop ps1 sc n = MyPolicy.suggestLoop ps2 sc n := by
  intro n
  induction n with
  | zero => rfl
  | succ n ih => simp [MyPolicy.suggestLoop, h, ih]

/-- C1: the stateless adapter is deterministic — two `MyPolicy` instances
constructed independently whose supporters fetch identical completed-trial
histories return equal suggestion sequences for the same study
configuration and count; `MyPolicy.suggest` is a function of
(study_config, fetched completed history, count) alone, with no other
in-memory state. -/
theorem C1_stateless_policy_determinism (ps1 ps2 : PolicySupporter)
    (study_config : StudyConfig) (count : ℕ)
    (h : ps1.GetTrials .COMPLETED = ps2.GetTrials .COMPLETED) :
    (MyPolicy.mk ps1).suggest ⟨count, study_config⟩ =
      (MyPolicy.mk ps2).suggest ⟨count, study_config⟩ := by
  unfold MyPolicy.suggest
  rw [suggestLoop_congr (get_next_index_congr h)]

theorem C1_stateless_policy_determinism_witness :
    (MyPolicy.mk supporterCompleted).suggest ⟨2, abcConfig⟩ =
      (MyPolicy.mk supporterWithActive).suggest ⟨2, abcConfig⟩ :=
  C1_stateless_policy_determinism supporterCompleted supporterWithActive
    abcConfig 2 (by rfl)

/-- C2 counterexample: in the INTEGER cycling scenario as the claim states
it, `MyDesigner.suggest(3)` after the three completed trials does not
return x = 4, 5, 6 — it raises the `ValueError` of `make_parameters`,
which only supports CATEGORICAL parameters. -/
theorem C2_integer_scenario_counterexample :
    (((MyDesigner.init intCyclingConfig).update ⟨completedTrials123⟩).suggest (some 3) =
      Except.error "This function only supports CATEGORICAL parameters.") ∧
    ¬ ∃ l : List ParameterDict,
      ((MyDesigner.init intCyclingConfig).update ⟨completedTrials123⟩).suggest (some 3) =
        Except.ok l := by
  refine ⟨rfl, ?_⟩
  rintro ⟨l, hl⟩
  exact Except.noConfusion (hl.symm.trans
    (show ((MyDesigner.init intCyclingConfig).update ⟨completedTrials123⟩).suggest (some 3) =
        Except.error "This function only supports CATEGORICAL parameters." from rfl))

/-- C2 amended: the cycling-baseline scenario holds in the CATEGORICAL
analogue supported by `make_parameters`: with one CATEGORICAL parameter `x`
whose feasible values are "1".."10" and three completed trials with ids
1, 2, 3, `suggest(3)` returns exactly x = "4", "5", "6" (indices
max(id) + 0, 1, 2 = 3, 4, 5 modulo 10 select the 4th–6th values); for the
INTEGER space of the claim the code instead raises a ValueError. -/
theorem C2_categorical_cycling_amended :
    ((MyDesigner.init catCyclingConfig).update ⟨completedTrials123⟩).suggest (some 3) =
      Except.ok [[("x", .categorical "4")], [("x", .categorical "5")],
                 [("x", .categorical "6")]] := by
  rfl

/-- C3: on the infeasible assignment (x = 2, y = 2) the notebook's
`evaluate` does not produce a COMPLETED trial carrying an infeasibility
reason: as written it raises a NameError (it reads the undefined name
`suggestion`), and even reading the parameters off the trial itself, the
infeasible branch only assigns `infeasibility_reason` and returns the
trial still ACTIVE — the reason string and the absent measurement match
the claim, the COMPLETED status does not. -/
theorem C3_infeasible_trial_not_completed :
    (evaluate none diskTrial = .error "NameError: name 'suggestion' is not defined") ∧
    evaluate (some diskTrial) diskTrial = .ok
      { id := 1, parameters := [("x", .double 2), ("y", .double 2)],
        status := .ACTIVE, final_measurement := none,
        infeasibility_reason := some "Outside of range." } := by
  refine ⟨rfl, ?_⟩
  simp [evaluate, getFloat, diskTrial, List.lookup, Trial.complete, Bind.bind,
    Except.bind, pure, Except.pure]
  norm_num

/-- C4: flattening correctness of the conditional search space — under
`optimizer = "sgd"` no active parameter's name starts with `adam_`, and
under `optimizer = "adam"` none starts with `sgd_`; the guarded walk never
emits an unreachable child. -/
theorem C4_conditional_flattening (assign : String → Option ParameterValue) :
    (assign "optimizer" = some (.categorical "sgd") →
      ∀ core ∈ conditional_problem.active assign, core.name.take 5 ≠ "adam_") ∧
    (assign "optimizer" = some (.categorical "adam") →
      ∀ core ∈ conditional_problem.active assign, core.name.take 4 ≠ "sgd_") := by
  refine ⟨fun h core hmem => ?_, fun h core hmem => ?_⟩
  · simp [conditional_problem, SearchSpace.active, ParameterConfig.active,
      Children.active, matchGuard, h, sgd_learning_rate, adam_learning_rate,
      adam_beta1, adam_beta2] at hmem
    rcases hmem with rfl | rfl <;> decide
  · simp [conditional_problem, SearchSpace.active, ParameterConfig.active,
      Children.active, matchGuard, h, sgd_learning_rate, adam_learning_rate,
      adam_beta1, adam_beta2] at hmem
    rcases hmem with rfl | rfl | rfl | rfl <;> decide

theorem C4_conditional_flattening_witness :
    (∀ core ∈ conditional_problem.active sgdAssignment, core.name.take 5 ≠ "adam_") ∧
    (∀ core ∈ conditional_problem.active adamAssignment, core.name.take 4 ≠ "sgd_") :=
  ⟨(C4_conditional_flattening sgdAssignment).1 rfl,
   (C4_conditional_flattening adamAssignment).2 rfl⟩

theorem dictSet_fresh (d : ParameterDict) (k : String) (v : ParameterValue)
    (h : ∀ e ∈ d, e.1 ≠ k) : dictSet d k v = d ++ [(k, v)] := by
  have hany : d.any (fun p => p.1 == k) = false := by
    rw [List.any_eq_false]
    intro p hp
    simpa using h p hp
  simp [dictSet, hany]

theorem make_parameters_loop_eq (index : ℕ) (l : List ParameterConfig) :
    ∀ acc : ParameterDict,
      (∀ pc ∈ l, pc.type = .CATEGORICAL ∧ pc.feasible_values ≠ []) →
      (l.map ParameterConfig.name).Nodup →
      (∀ pc ∈ l, ∀ e ∈ acc, e.1 ≠ pc.name) →
      make_parameters_loop index l acc = .ok (acc ++ l.map fun pc =>
        (pc.name, ParameterValue.categorical
          (pc.feasible_values.getD (index % pc.feasible_values.length) ""))) := by
  induction l with
  | nil => intro acc _ _ _; simp [make_parameters_loop]
  | cons pc rest ih =>
    intro acc hcat hnodup hfresh
    have hpc := hcat pc (List.mem_cons_self pc rest)
    have hlen : ¬ pc.feasible_values.length = 0 := by
      simpa [List.length_eq_zero] using hpc.2
    have hhead : pc.name ∉ rest.map ParameterConfig.name :=
      (List.nodup_cons.mp hnodup).1
    rw [make_parameters_loop, if_pos hpc.1, if_neg hlen,
      dictSet_fresh _ _ _ (fun e he => hfresh pc (List.mem_cons_self pc rest) e he),
      ih _ (fun q hq => hcat q (List.mem_cons_of_mem pc hq))
        (List.nodup_cons.mp hnodup).2
        (by
          intro q hq e he
          rcases List.mem_append.mp he with he' | he'
          · exact hfresh q (List.mem_cons_of_mem pc hq) e he'
          · rw [List.mem_singleton.mp he']
            intro hcontra
            have hq' : pc.name = q.name := hcontra
            refine hhead ?_
            rw [hq']
            exact List.mem_map_of_mem ParameterConfig.name hq)]
    simp

theorem lookup_map_name (f : ParameterConfig → ParameterValue) :
    ∀ l : List ParameterConfig, (l.map ParameterConfig.name).Nodup →
      ∀ pc ∈ l, (l.map fun q => (q.name, f q)).lookup pc.name = some (f pc) := by
  intro l
  induction l with
  | nil => intro _ pc h; cases h
  | cons q rest ih =>
    intro hnodup pc hmem
    rcases List.mem_cons.mp hmem with rfl | hmem'
    · simp [List.lookup]
    · have hne : pc.name ≠ q.name := by
        intro he
        exact (List.nodup_cons.mp hnodup).1
          (he ▸ List.mem_map_of_mem ParameterConfig.name hmem')
      have hbeq : (pc.name == q.name) = false := beq_eq_false_iff_ne.mpr hne
      simpa [List.lookup, hbeq] using
        ih (List.nodup_cons.mp hnodup).2 pc hmem'

/-- C5: `make_parameters` selects `feasible_values[index % len(feasible_values)]`
for every CATEGORICAL parameter — for a study configuration whose parameters
are all CATEGORICAL with nonempty, distinctly named feasible-value lists,
the produced dictionary maps each parameter name to exactly that value (and
with feasible values a, b, c and index 4, that value is "b"). -/
theorem C5_make_parameters_categorical_cycling (study_config : StudyConfig)
    (index : ℕ) (pc : ParameterConfig)
    (hmem : pc ∈ study_config.search_space.parameters)
    (hcat : ∀ q ∈ study_config.search_space.parameters,
      q.type = .CATEGORICAL ∧ q.feasible_values ≠ [])
    (hnodup : (study_config.search_space.parameters.map ParameterConfig.name).Nodup) :
    ∃ d, make_parameters study_config index = .ok d ∧
      d.lookup pc.name = some (.categorical
        (pc.feasible_values.getD (index % pc.feasible_values.length) "")) := by
  have hmk := make_parameters_loop_eq index study_config.search_space.parameters []
    hcat hnodup (by intro _ _ e he; cases he)
  refine ⟨_, hmk, ?_⟩
  have hl := lookup_map_name
    (fun q => ParameterValue.categorical
      (q.feasible_values.getD (index % q.feasible_values.length) ""))
    study_config.search_space.parameters hnodup pc hmem
  simpa using hl

theorem C5_make_parameters_categorical_cycling_witness :
    ∃ d, make_parameters abcConfig 4 = .ok d ∧
      d.lookup "p" = some (.categorical "b") := by
  have h := C5_make_parameters_categorical_cycling abcConfig 4 abcParam
    (List.mem_singleton.mpr rfl)
    (by
      intro q hq
      have hq' : q = abcParam := by simpa [abcConfig] using hq
      subst hq'
      exact ⟨rfl, by decide⟩)
    (by decide)
  simpa [abcParam, ParameterConfig.name, ParameterConfig.feasible_values,
    ParameterConfig.core] using h

theorem suggestLoop_length (ps : PolicySupporter) (sc : StudyConfig) :
    ∀ n ys, MyPolicy.suggestLoop ps sc n = .ok ys → ys.length = n := by
  intro n
  induction n with
  | zero =>
    intro ys h
    simp only [MyPolicy.suggestLoop] at h
    cases h
    rfl
  | succ n ih =>
    intro ys h
    rw [MyPolicy.suggestLoop] at h
    cases hp : make_parameters sc (get_next_index ps) with
    | error e => rw [hp] at h; simp [Bind.bind, Except.bind] at h
    | ok params =>
      rw [hp] at h
      cases hr : MyPolicy.suggestLoop ps sc n with
      | error e => rw [hr] at h; simp [Bind.bind, Except.bind] at h
      | ok rest =>
        rw [hr] at h
        simp only [Bind.bind, Except.bind, pure, Except.pure, Except.ok.injEq] at h
        rw [← h]
        simpa using ih rest hr

theorem suggestList_length (sc : StudyConfig) (current_index : ℕ) :
    ∀ l ys, MyDesigner.suggestList sc current_index l = .ok ys →
      ys.length = l.length := by
  intro l
  induction l with
  | nil =>
    intro ys h
    simp only [MyDesigner.suggestList] at h
    cases h
    rfl
  | cons i rest ih =>
    intro ys h
    rw [MyDesigner.suggestList] at h
    cases hp : make_parameters sc (current_index + i) with
    | error e => rw [hp] at h; simp [Bind.bind, Except.bind] at h
    | ok d =>
      rw [hp] at h
      cases hr : MyDesigner.suggestList sc current_index rest with
      | error e => rw [hr] at h; simp [Bind.bind, Except.bind] at h
      | ok ds =>
        rw [hr] at h
        simp only [Bind.bind, Except.bind, pure, Except.pure, Except.ok.injEq] at h
        rw [← h]
        simpa using ih ds hr

/-- C6: suggest returns at most the requested count — whenever
`MyPolicy.suggest` returns a decision, it has at most `request.count`
suggestions, and whenever `MyDesigner.suggest(count = n)` returns a list,
it has at most `n` assignments (both in fact return exactly that many on
success). -/
theorem C6_suggest_count_bound :
    (∀ (p : MyPolicy) (request : SuggestRequest) (d : SuggestDecision),
      p.suggest request = .ok d → d.suggestions.length ≤ request.count) ∧
    (∀ (des : MyDesigner) (n : ℕ) (l : List ParameterDict),
      des.suggest (some n) = .ok l → l.length ≤ n) := by
  constructor
  · intro p request d h
    rw [MyPolicy.suggest] at h
    cases hl : MyPolicy.suggestLoop p.policy_supporter request.study_config
        request.count with
    | error e => rw [hl] at h; simp [Bind.bind, Except.bind] at h
    | ok ys =>
      rw [hl] at h
      simp only [Bind.bind, Except.bind, pure, Except.pure, Except.ok.injEq] at h
      rw [← h]
      exact le_of_eq (suggestLoop_length _ _ _ ys hl)
  · intro des n l h
    rw [MyDesigner.suggest] at h
    cases hids : des.completed_trials.map Trial.id with
    | nil => rw [hids] at h; exact Except.noConfusion h
    | cons x xs =>
      rw [hids] at h
      have hlen := suggestList_length des.study_config (xs.foldl Nat.max x) _ l h
      exact le_of_eq (hlen.trans (List.length_range n))

theorem C6_suggest_count_bound_witness :
    ∃ d : SuggestDecision, (MyPolicy.mk supporterCompleted).suggest ⟨2, abcConfig⟩ = .ok d ∧
      d.suggestions.length ≤ 2 := by
  refine ⟨_, rfl, ?_⟩
  exact C6_suggest_count_bound.1 (MyPolicy.mk supporterCompleted) ⟨2, abcConfig⟩ _ rfl

/-- C7: calling `MyDesigner.suggest` with an absent count returns the empty
sequence in every state of the designer, no matter how many completed
trials have been observed. -/
theorem C7_absent_count_returns_empty (d : MyDesigner) :
    d.suggest none = .ok [] := rfl

/-- C8: updating with an empty batch any number of times is safe and leaves
the designer's state — and therefore the output of every subsequent
`suggest` call — unchanged. -/
theorem C8_empty_update_idempotent (d : MyDesigner) (k : ℕ) :
    (fun x => MyDesigner.update x ⟨[]⟩)^[k] d = d ∧
    ∀ count, ((fun x => MyDesigner.update x ⟨[]⟩)^[k] d).suggest count =
      d.suggest count := by
  have hone : ∀ x : MyDesigner, MyDesigner.update x ⟨[]⟩ = x := by
    intro x
    simp [MyDesigner.update]
  have h : (fun x => MyDesigner.update x ⟨[]⟩)^[k] d = d := by
    induction k with
    | zero => rfl
    | succ k ih => rw [Function.iterate_succ_apply, hone, ih]
  exact ⟨h, fun count => by rw [h]⟩

/-- C9: calling `MyDesigner.suggest` with any positive count while no
completed trial has ever been delivered raises the `ValueError` of
`max([])` — the error branch is reachable from the public interface. -/
theorem C9_suggest_without_observations_raises (d : MyDesigner)
    (hempty : d.completed_trials = []) (n : ℕ) (_hn : 1 ≤ n) :
    d.suggest (some n) = .error "ValueError: max() arg is an empty sequence" := by
  rw [MyDesigner.suggest, hempty]
  rfl

theorem C9_suggest_without_observations_raises_witness :
    (MyDesigner.init abcConfig).suggest (some 1) =
      .error "ValueError: max() arg is an empty sequence" :=
  C9_suggest_without_observations_raises (MyDesigner.init abcConfig) rfl 1
    (by decide)

theorem boundedFrom_cons {k d : ℕ} {ds : List ℕ} :
    BoundedFrom k (d :: ds) ↔ d ≤ k ∧ BoundedFrom (k + 1) ds := by
  constructor
  · intro h
    constructor
    · simpa using h 0 (by simp)
    · intro i hi
      have h2 := h (i + 1) (by simp; omega)
      simp only [List.getD_cons_succ] at h2
      omega
  · rintro ⟨hd, hds⟩ i hi
    cases i with
    | zero => simpa using hd
    | succ i =>
      have hi' : i < ds.length := by simp at hi; omega
      have h2 := hds i hi'
      simp only [List.getD_cons_succ]
      omega

theorem cIdxAux_lt_prodFrom : ∀ (ds : List ℕ) (k : ℕ), BoundedFrom k ds →
    cIdxAux k ds < prodFrom k ds.length := by
  intro ds
  induction ds with
  | nil => intro k _; simp [cIdxAux, prodFrom]
  | cons d rest ih =>
    intro k hb
    obtain ⟨hd, hrest⟩ := boundedFrom_cons.mp hb
    have h1 := ih (k + 1) hrest
    simp only [cIdxAux, prodFrom, List.length_cons]
    calc d + (k + 1) * cIdxAux (k + 1) rest
        < (k + 1) * (cIdxAux (k + 1) rest + 1) := by rw [Nat.mul_succ]; omega
      _ ≤ (k + 1) * prodFrom (k + 1) rest.length := Nat.mul_le_mul_left _ h1

theorem cIdxAux_inj : ∀ (ds es : List ℕ) (k : ℕ), ds.length = es.length →
    BoundedFrom k ds → BoundedFrom k es → cIdxAux k ds = cIdxAux k es →
    ds = es := by
  intro ds
  induction ds with
  | nil =>
    intro es k hlen _ _ _
    cases es with
    | nil => rfl
    | cons e es' => simp at hlen
  | cons d rest ih =>
    intro es k hlen hbd hbe heq
    cases es with
    | nil => simp at hlen
    | cons e es' =>
      obtain ⟨hd, hrest⟩ := boundedFrom_cons.mp hbd
      obtain ⟨he, hes⟩ := boundedFrom_cons.mp hbe
      simp only [cIdxAux] at heq
      have hde : d = e := by
        have h1 : (d + (k + 1) * cIdxAux (k + 1) rest) % (k + 1) = d := by
          rw [Nat.add_mul_mod_self_left]
          exact Nat.mod_eq_of_lt (by omega)
        have h2 : (e + (k + 1) * cIdxAux (k + 1) es') % (k + 1) = e := by
          rw [Nat.add_mul_mod_self_left]
          exact Nat.mod_eq_of_lt (by omega)
        rw [← h1, ← h2, heq]
      subst hde
      have hxy : cIdxAux ( k + 1) rest = cIdxAux (k + 1) es' :=
        Nat.eq_of_mul_eq_mul_left (by omega) (Nat.add_left_cancel heq)
      rw [ih es' (k + 1) (by simpa using hlen) hrest hes hxy]

theorem cIdxAux_surj : ∀ (n k t : ℕ), t < prodFrom k n →
    ∃ ds, ds.length = n ∧ BoundedFrom k ds ∧ cIdxAux k ds = t := by
  intro n
  induction n with
  | zero =>
    intro k t ht
    simp only [prodFrom] at ht
    refine ⟨[], rfl, ?_, ?_⟩
    · intro i hi; simp at hi
    · simp only [cIdxAux]; omega
  | succ n ih =>
    intro k t ht
    simp only [prodFrom] at ht
    have hdiv : t / (k + 1) < prodFrom (k + 1) n := Nat.div_lt_of_lt_mul ht
    obtain ⟨ds, hlen, hb, hval⟩ := ih (k + 1) (t / (k + 1)) hdiv
    refine ⟨t % (k + 1) :: ds, by simp [hlen], ?_, ?_⟩
    · refine boundedFrom_cons.mpr ⟨?_, hb⟩
      have := Nat.mod_lt t (show 0 < k + 1 by omega)
      omega
    · simp only [cIdxAux, hval]
      exact Nat.mod_add_div t (k + 1)

theorem sumFrom_eq : ∀ (l : List ℕ) (k : ℕ),
    sumFrom k l = Nat.factorial k * cIdxAux k l := by
  intro l
  induction l with
  | nil => intro k; simp [sumFrom, cIdxAux]
  | cons d ds ih =>
    intro k
    rw [sumFrom, List.length_cons, Finset.sum_range_succ']
    simp only [List.getD_cons_succ, List.getD_cons_zero]
    rw [show (∑ i ∈ Finset.range ds.length,
          ds.getD i 0 * Nat.factorial (k + (i + 1))) =
        sumFrom (k + 1) ds from Finset.sum_congr rfl fun i _ => by
          rw [show k + (i + 1) = k + 1 + i by omega]]
    rw [ih (k + 1), cIdxAux, Nat.factorial_succ]
    ring_nf

theorem compute_index_eq_cIdxAux (l : List ℕ) (hlen : l.length = N) :
    compute_index l = cIdxAux 0 l := by
  have h := sumFrom_eq l 0
  rw [sumFrom, hlen] at h
  rw [compute_index]
  simpa using h

theorem prodFrom_zero_eq_factorial : prodFrom 0 N = Nat.factorial N := by decide

theorem permAux_perm : ∀ (r : ℕ) (all : List ℕ) (t : ℕ), all.length = r →
    t < Nat.factorial r → (computePermAux all t r).Perm all := by
  intro r
  induction r with
  | zero =>
    intro all t hlen _
    rw [List.length_eq_zero] at hlen
    subst hlen
    simp [computePermAux]
  | succ r ih =>
    intro all t hlen ht
    have hpos : 0 < Nat.factorial r := Nat.factorial_pos r
    have hidx : t / Nat.factorial r < all.length := by
      rw [hlen, Nat.div_lt_iff_lt_mul hpos, ← Nat.factorial_succ]
      exact ht
    have hmem : all.getD (t / Nat.factorial r) 0 ∈ all := by
      rw [List.getD_eq_getElem _ _ hidx]
      exact List.getElem_mem hidx
    have herase_len :
        (all.erase (all.getD (t / Nat.factorial r) 0)).length = r := by
      rw [List.length_erase_of_mem hmem, hlen]
      rfl
    have hrec := ih _ (t % Nat.factorial r) herase_len (Nat.mod_lt _ hpos)
    exact ((hrec.cons (all.getD (t / Nat.factorial r) 0)).trans
      (List.perm_cons_erase hmem).symm)

theorem permAux_inj : ∀ (r : ℕ) (all : List ℕ) (t t' : ℕ), all.length = r →
    all.Nodup → t < Nat.factorial r → t' < Nat.factorial r →
    computePermAux all t r = computePermAux all t' r → t = t' := by
  intro r
  induction r with
  | zero =>
    intro all t t' _ _ ht ht' _
    simp only [Nat.factorial] at ht ht'
    omega
  | succ r ih =>
    intro all t t' hlen hnodup ht ht' heq
    have hpos : 0 < Nat.factorial r := Nat.factorial_pos r
    have hidx : t / Nat.factorial r < all.length := by
      rw [hlen, Nat.div_lt_iff_lt_mul hpos, ← Nat.factorial_succ]
      exact ht
    have hidx' : t' / Nat.factorial r < all.length := by
      rw [hlen, Nat.div_lt_iff_lt_mul hpos, ← Nat.factorial_succ]
      exact ht'
    simp only [computePermAux, List.cons.injEq] at heq
    obtain ⟨hhead, htail⟩ := heq
    rw [List.getD_eq_getElem _ _ hidx, List.getD_eq_getElem _ _ hidx'] at hhead
    have hdiv : t / Nat.factorial r = t' / Nat.factorial r :=
      (List.Nodup.getElem_inj_iff hnodup).mp hhead
    have hvmem : all[t / Nat.factorial r] ∈ all := List.getElem_mem hidx
    rw [List.getD_eq_getElem _ _ hidx, List.getD_eq_getElem _ _ hidx',
      ← hhead] at htail
    have hmodeq : t % Nat.factorial r = t' % Nat.factorial r := by
      refine ih (all.erase all[t / Nat.factorial r]) _ _ ?_ (hnodup.erase _)
        (Nat.mod_lt _ hpos) (Nat.mod_lt _ hpos) htail
      rw [List.length_erase_of_mem hvmem, hlen]
      rfl
    have e1 := Nat.mod_add_div t (Nat.factorial r)
    have e2 := Nat.mod_add_div t' (Nat.factorial r)
    rw [hmodeq, hdiv] at e1
    omega

theorem permAux_surj : ∀ (r : ℕ) (all p : List ℕ), all.length = r →
    all.Nodup → p.Perm all →
    ∃ t, t < Nat.factorial r ∧ computePermAux all t r = p := by
  intro r
  induction r with
  | zero =>
    intro all p hlen _ hperm
    rw [List.length_eq_zero] at hlen
    subst hlen
    rw [hperm.eq_nil]
    exact ⟨0, by simp [Nat.factorial], rfl⟩
  | succ r ih =>
    intro all p hlen hnodup hperm
    have hpos : 0 < Nat.factorial r := Nat.factorial_pos r
    have hplen : p.length = r + 1 := by rw [hperm.length_eq, hlen]
    cases p with
    | nil => simp at hplen
    | cons v rest =>
      have hvmem : v ∈ all := hperm.subset (List.mem_cons_self v rest)
      have hrest : rest.Perm (all.erase v) :=
        (List.cons_perm_iff_perm_erase.mp hperm).2
      have herase_len : (all.erase v).length = r := by
        rw [List.length_erase_of_mem hvmem, hlen]
        rfl
      obtain ⟨t', ht', hrec⟩ := ih (all.erase v) rest herase_len
        (hnodup.erase v) hrest
      have hi : all.indexOf v < all.length := List.indexOf_lt_length.mpr hvmem
      refine ⟨all.indexOf v * Nat.factorial r + t', ?_, ?_⟩
      · have hile : all.indexOf v ≤ r := by omega
        calc all.indexOf v * Nat.factorial r + t'
            < (all.indexOf v + 1) * Nat.factorial r := by
              rw [Nat.succ_mul]
              omega
          _ ≤ (r + 1) * Nat.factorial r :=
              Nat.mul_le_mul_right _ (by omega)
          _ = Nat.factorial (r + 1) := (Nat.factorial_succ r).symm
      · have hdiv : (all.indexOf v * Nat.factorial r + t') / Nat.factorial r =
            all.indexOf v := by
          rw [Nat.mul_comm (all.indexOf v), Nat.mul_add_div hpos,
            Nat.div_eq_of_lt ht', Nat.add_zero]
        have hmod : (all.indexOf v * Nat.factorial r + t') % Nat.factorial r =
            t' := by
          rw [Nat.mul_comm (all.indexOf v), Nat.mul_add_mod,
            Nat.mod_eq_of_lt ht']
        have hget : all.getD (all.indexOf v) 0 = v := by
          rw [List.getD_eq_getElem _ _ hi]
          exact List.getElem_indexOf hi
        simp only [computePermAux, hdiv, hmod, hget, hrec]

/-- The `LehmerBounded` predicate in positional form. -/
theorem lehmerBounded_iff {l : List ℕ} :
    LehmerBounded l ↔ l.length = N ∧ BoundedFrom 0 l := by
  unfold LehmerBounded BoundedFrom
  constructor
  · rintro ⟨h1, h2⟩
    exact ⟨h1, fun i hi => by simpa using h2 i (h1 ▸ hi)⟩
  · rintro ⟨h1, h2⟩
    exact ⟨h1, fun n hn => by simpa using h2 n (h1.symm ▸ hn)⟩

/-- C10: the Lehmer-code reparameterization is well-formed — for every
valid assignment of the permutation search space (parameter `str(n)` an
integer in `[0, n]`), `compute_index` lands in `[0, 10! - 1]`, `phi`
returns a length-10 list that is a permutation of `{0, ..., 9}` (each index
exactly once), and the mapping from assignments to permutations is a
bijection: injective, and onto all permutations of `{0, ..., 9}`. -/
theorem C10_lehmer_reparameterization :
    (∀ values, LehmerBounded values → compute_index values < Nat.factorial N) ∧
    (∀ values, LehmerBounded values →
      (phi values).length = N ∧ (phi values).Perm (List.range N)) ∧
    (∀ v1 v2, LehmerBounded v1 → LehmerBounded v2 → phi v1 = phi v2 →
      v1 = v2) ∧
    (∀ p, p.Perm (List.range N) →
      ∃ values, LehmerBounded values ∧ phi values = p) := by
  have hbound : ∀ values, LehmerBounded values →
      compute_index values < Nat.factorial N := by
    intro values hv
    obtain ⟨hlen, hb⟩ := lehmerBounded_iff.mp hv
    rw [compute_index_eq_cIdxAux values hlen, ← prodFrom_zero_eq_factorial,
      ← hlen]
    exact cIdxAux_lt_prodFrom values 0 hb
  refine ⟨hbound, ?_, ?_, ?_⟩
  · intro values hv
    have hperm : (phi values).Perm (List.range N) :=
      permAux_perm N (List.range N) (compute_index values)
        (List.length_range N) (hbound values hv)
    exact ⟨hperm.length_eq.trans (List.length_range N), hperm⟩
  · intro v1 v2 h1 h2 heq
    obtain ⟨hlen1, hb1⟩ := lehmerBounded_iff.mp h1
    obtain ⟨hlen2, hb2⟩ := lehmerBounded_iff.mp h2
    have hidxeq : compute_index v1 = compute_index v2 :=
      permAux_inj N (List.range N) _ _ (List.length_range N)
        (List.nodup_range N) (hbound v1 h1) (hbound v2 h2) heq
    rw [compute_index_eq_cIdxAux v1 hlen1,
      compute_index_eq_cIdxAux v2 hlen2] at hidxeq
    exact cIdxAux_inj v1 v2 0 (hlen1.trans hlen2.symm) hb1 hb2 hidxeq
  · intro p hp
    obtain ⟨t, ht, hdec⟩ := permAux_surj N (List.range N) p
      (List.length_range N) (List.nodup_range N) hp
    obtain ⟨ds, hlen, hb, hval⟩ := cIdxAux_surj N 0 t
      (by rw [prodFrom_zero_eq_factorial]; exact ht)
    refine ⟨ds, lehmerBounded_iff.mpr ⟨hlen, hb⟩, ?_⟩
    rw [phi, compute_index_eq_cIdxAux ds hlen, hval, compute_permutation]
    exact hdec

theorem C10_lehmer_reparameterization_witness :
    LehmerBounded [0, 1, 2, 3, 4, 5, 6, 7, 8, 9] ∧
    (phi [0, 1, 2, 3, 4, 5, 6, 7, 8, 9]).length = N ∧
    (phi [0, 1, 2, 3, 4, 5, 6, 7, 8, 9]).Perm (List.range N) :=
  ⟨by decide,
   C10_lehmer_reparameterization.2.1 [0, 1, 2, 3, 4, 5, 6, 7, 8, 9] (by decide)⟩

end Vizier
